import Mathlib

/-!
# Verification of the X-mu fuzzy-set library (`xmu.py`)

Shallow embedding of the alpha-cut (X-mu) engine of the X-mu Python library:
the four shape generators (`UpwardGradientXmu`, `DownwardGradientXmu`,
`TrapezoidalXmu`, `TriangularXmu`), the per-alpha fuzzy-arithmetic engine
(`Xmu.arithmeticalOperationX` and its five wrappers `addX`, `subX`,
`multiplyX`, `divX`, `powX`) and the symbolic set-algebra operation
`differenceX`.

Modelling conventions:
* Python floats and sympy numbers are modelled as exact rationals `ℚ`;
  mpmath's directed rounding at finite precision is idealised away.
* An entity's X-mu function `xequals` is, for every generator and every
  arithmetic result, a sympy `Interval(lo(ALPHA), hi(ALPHA))`; it is modelled
  by the pair of endpoint functions `lo hi : ℚ → ℚ`.
* Substituting a concrete alpha into `Interval(f, g)` follows sympy's
  normalisation: the result is `EmptySet` when `f > g`, the degenerate
  `FiniteSet {f}` when `f = g`, and a proper interval otherwise.  Both the
  non-empty cases are represented by `CutVal` (mpmath converts either one to
  the same `mpi(inf, sup)` primitive, so the `FiniteSet` type test in
  `arithmeticalOperationX` selects between two branches that build the same
  interval).
* mpmath interval endpoints may be infinite: `XQ` is `ℚ` extended with
  `-inf` and `+inf`.  Division by an interval whose interior contains zero
  yields the entire extended real line `(-inf, +inf)` in mpmath; division by
  an interval with zero as an endpoint yields a half-infinite interval.
* A power with an exponent cut that is not a degenerate integer goes through
  `mpi_sqrt` / `mpi_log` + `mpi_exp` in mpmath, and `mpf_sqrt` / `mpf_log`
  raise the `ComplexResult` exception on negative inputs with no catch in
  the interval path: when the base cut contains negative numbers the call
  raises instead of returning.  `MpiResult.complexResult` models that raise
  and `OpResult.raised` models the exception propagating out of the engine
  (the call produces no return value at all).  For a non-negative base the
  exp/log endpoints are irrational in general and not representable here;
  that normal-return value (and only the value, never the outcome
  constructor) is modelled coarsely by the entire line.
* A universe with `inf > sup` cannot reach the constructor as such: sympy
  normalises `Interval(inf, sup)` with `inf > sup` to `EmptySet`, and
  `Xmu.__init__` then fails on `u.start`.  The theorems below therefore only
  concern well-formed universes.
-/

/-- Endpoint of an mpmath interval: a rational, `-inf`, or `+inf`. -/
inductive XQ where
  | ninf : XQ
  | fin : ℚ → XQ
  | pinf : XQ
deriving DecidableEq

/-- A non-empty concrete alpha-cut, as handed to mpmath: `mpi(lo, hi)` with
`lo ≤ hi` (a sympy `FiniteSet` point becomes `mpi(v, v)`). -/
structure CutVal where
  lo : ℚ
  hi : ℚ
deriving DecidableEq

/-- An `Xmu` entity: universe `[uinf, usup]`, X-mu function
`Interval(lo(ALPHA), hi(ALPHA))` and membership function `mu`.  This covers
every entity built by the four shape generators and every entity returned by
the arithmetic engine.  A universe pair with `uinf > usup` cannot arise in
the source (sympy normalises such an `Interval` to `EmptySet` and the base
constructor then fails on `u.start`), and no theorem below asserts that one
is accepted. -/
structure Xmu where
  uinf : ℚ
  usup : ℚ
  lo : ℚ → ℚ
  hi : ℚ → ℚ
  mu : ℚ → ℚ

/-- `xequals.subs(ALPHA, α)` under sympy normalisation: `none` is `EmptySet`
(when `lo > hi`), `some ⟨lo, hi⟩` is the non-empty interval or point. -/
def Xmu.cutAt (e : Xmu) (α : ℚ) : Option CutVal :=
  if e.hi α < e.lo α then none else some ⟨e.lo α, e.hi α⟩

/-- The alpha-cut of `e` at level `α` as a set of (rational) points: the
denotation of `Interval(lo(α), hi(α))`. -/
def Xmu.cutSet (e : Xmu) (α : ℚ) : Set ℚ :=
  Set.Icc (e.lo α) (e.hi α)

/-- Result of one call of the arithmetic engine: a fresh `BasicXmu` wrapping
`Interval(result.a, result.b)` over the receiver's universe, Python `None`,
or an uncaught library exception propagating out of the call (so that the
call returns no value at all). -/
inductive OpResult where
  | entity : ℚ → ℚ → XQ → XQ → OpResult
  | absent : OpResult
  | raised : OpResult
deriving DecidableEq

/-- Outcome of one mpmath interval primitive: a normal interval return, or
the `ComplexResult` exception that `mpf_sqrt` / `mpf_log` raise on negative
inputs inside `mpi_pow` (there is no catch in the interval path). -/
inductive MpiResult where
  | ok : XQ → XQ → MpiResult
  | complexResult : MpiResult
deriving DecidableEq

/-- mpmath `mpi` addition (always returns normally). -/
def mpiAdd (s t : CutVal) : MpiResult :=
  MpiResult.ok (XQ.fin (s.lo + t.lo)) (XQ.fin (s.hi + t.hi))

/-- mpmath `mpi` subtraction (always returns normally). -/
def mpiSub (s t : CutVal) : MpiResult :=
  MpiResult.ok (XQ.fin (s.lo - t.hi)) (XQ.fin (s.hi - t.lo))

/-- mpmath `mpi` division.  A divisor whose interior contains zero gives the
entire extended line; zero as a divisor endpoint gives a half-infinite
interval (sign determined by the numerator); otherwise the span of the four
endpoint quotients. -/
def mpiDiv (s t : CutVal) : MpiResult :=
  if t.lo < 0 ∧ 0 < t.hi then MpiResult.ok XQ.ninf XQ.pinf
  else if t.lo = 0 ∧ t.hi = 0 then MpiResult.ok XQ.ninf XQ.pinf
  else if t.lo = 0 then
    if 0 < s.lo then MpiResult.ok (XQ.fin (s.lo / t.hi)) XQ.pinf
    else if s.hi < 0 then MpiResult.ok XQ.ninf (XQ.fin (s.hi / t.hi))
    else MpiResult.ok XQ.ninf XQ.pinf
  else if t.hi = 0 then
    if 0 < s.lo then MpiResult.ok XQ.ninf (XQ.fin (s.lo / t.lo))
    else if s.hi < 0 then MpiResult.ok (XQ.fin (s.hi / t.lo)) XQ.pinf
    else MpiResult.ok XQ.ninf XQ.pinf
  else
    MpiResult.ok
      (XQ.fin (min (min (s.lo / t.lo) (s.lo / t.hi)) (min (s.hi / t.lo) (s.hi / t.hi))))
      (XQ.fin (max (max (s.lo / t.lo) (s.lo / t.hi)) (max (s.hi / t.lo) (s.hi / t.hi))))

/-- `Xmu.arithmeticalOperationX(self, i2, alpha, operation)`: substitute the
concrete alpha into both X-mu functions; if either substituted set is
`EmptySet`, return `None`; otherwise convert both to `mpi` primitives (the
`FiniteSet` type test only chooses between two conversions that agree) and
apply the interval operation: a normal interval result is wrapped over
`self.u`, and a library exception propagates out uncaught. -/
def Xmu.arithmeticalOperationX (self i2 : Xmu) (α : ℚ)
    (op : CutVal → CutVal → MpiResult) : OpResult :=
  match self.cutAt α, i2.cutAt α with
  | some ra, some rb =>
      match op ra rb with
      | MpiResult.ok l h => OpResult.entity self.uinf self.usup l h
      | MpiResult.complexResult => OpResult.raised
  | _, _ => OpResult.absent

/-- `Xmu.addX`. -/
def Xmu.addX (self i2 : Xmu) (α : ℚ) : OpResult :=
  self.arithmeticalOperationX i2 α mpiAdd

/-- `Xmu.subX`. -/
def Xmu.subX (self i2 : Xmu) (α : ℚ) : OpResult :=
  self.arithmeticalOperationX i2 α mpiSub

/-- `Xmu.divX`. -/
def Xmu.divX (self i2 : Xmu) (α : ℚ) : OpResult :=
  self.arithmeticalOperationX i2 α mpiDiv

/-- A returned `BasicXmu` re-used as an operand: its X-mu function is the
constant stored interval and its membership function is the inherited
default `Piecewise((0.0, True))`.  Infinite endpoints fall outside the
interval-entity representation used here. -/
def OpResult.toXmu : OpResult → Option Xmu
  | OpResult.entity ui us (XQ.fin l) (XQ.fin h) =>
      some { uinf := ui, usup := us, lo := fun _ => l, hi := fun _ => h, mu := fun _ => 0 }
  | _ => none

/-- `UpwardGradientXmu(u, a, b)`: mu is `Piecewise(((x-a)/(b-a), a < x < b),
(1.0, x >= b), (0.0, True))`; the X-mu function is
`Interval(ALPHA*b - ALPHA*a + a, u.sup)`. -/
def upwardGradientXmu (uinf usup a b : ℚ) : Xmu where
  uinf := uinf
  usup := usup
  lo := fun α => α * b - α * a + a
  hi := fun _ => usup
  mu := fun x => if a < x ∧ x < b then (x - a) / (b - a) else if b ≤ x then 1 else 0

/-- `DownwardGradientXmu(u, a, b)`: mu is `Piecewise(((b-x)/(b-a), a < x < b),
(1.0, x <= a), (0.0, True))`; the X-mu function is
`Interval(u.inf, -ALPHA*b + ALPHA*a + b)`. -/
def downwardGradientXmu (uinf usup a b : ℚ) : Xmu where
  uinf := uinf
  usup := usup
  lo := fun _ => uinf
  hi := fun α => -α * b + α * a + b
  mu := fun x => if a < x ∧ x < b then (b - x) / (b - a) else if x ≤ a then 1 else 0

/-- `TrapezoidalXmu(u, a, b, c, d)`: mu is the four-branch trapezoid
`Piecewise`; the X-mu function is
`Interval(ALPHA*b - ALPHA*a + a, -ALPHA*d + ALPHA*c + d)`. -/
def trapezoidalXmu (uinf usup a b c d : ℚ) : Xmu where
  uinf := uinf
  usup := usup
  lo := fun α => α * b - α * a + a
  hi := fun α => -α * d + α * c + d
  mu := fun x =>
    if a < x ∧ x < b then (x - a) / (b - a)
    else if b ≤ x ∧ x ≤ c then 1
    else if c < x ∧ x < d then (d - x) / (d - c)
    else 0

/-- `TriangularXmu(u, a, b, c)`: `setMuFunction` stores `self.c = b` and
`self.d = c` and then evaluates the trapezoid `Piecewise`, so mu is the
trapezoid mu with points `(a, b, b, c)`; `setXFunction` builds
`Interval(ALPHA*b - ALPHA*a + a, -ALPHA*c + ALPHA*b + c)`. -/
def triangularXmu (uinf usup a b c : ℚ) : Xmu where
  uinf := uinf
  usup := usup
  lo := fun α => α * b - α * a + a
  hi := fun α => -α * c + α * b + c
  mu := fun x =>
    if a < x ∧ x < b then (x - a) / (b - a)
    else if b ≤ x ∧ x ≤ b then 1
    else if b < x ∧ x < c then (c - x) / (c - b)
    else 0

/-- An `Xmu` entity whose X-mu function is an arbitrary symbolic sympy set
(general alpha-parametrised subset of the universe), as consumed and
produced by the set-algebra methods. -/
structure SetXmu where
  uinf : ℚ
  usup : ℚ
  xequals : ℚ → Set ℚ
  mu : ℚ → ℚ

/-- `Xmu.differenceX(self, target)`: `i1 = target.get_xequals()`,
`i2 = self.get_xequals()`, `result = i2 - i1`, wrapped as a `BasicXmu` over
`self.u` (with the inherited constant-zero membership placeholder). -/
def SetXmu.differenceX (self target : SetXmu) : SetXmu :=
  let i1 := target.xequals
  let i2 := self.xequals
  { uinf := self.uinf
    usup := self.usup
    xequals := fun α => i2 α \ i1 α
    mu := fun _ => 0 }

/-- Claim C1: for every universe interval and control points
`a ≤ b ≤ c ≤ d`, the `TrapezoidalXmu` generator constructs an X-mu function
that, as a function of alpha in `[0,1]`, is exactly the interval
`[alpha*(b-a)+a, d - alpha*(d-c)]` (the lower endpoint never exceeds the
upper one, so the interval is genuinely that set). -/
theorem trapezoidalXmu_alpha_cut (uinf usup a b c d α : ℚ)
    (hab : a ≤ b) (hbc : b ≤ c) (hcd : c ≤ d) (h0 : 0 ≤ α) (h1 : α ≤ 1) :
    (trapezoidalXmu uinf usup a b c d).lo α = α * (b - a) + a ∧
    (trapezoidalXmu uinf usup a b c d).hi α = d - α * (d - c) ∧
    α * (b - a) + a ≤ d - α * (d - c) ∧
    (trapezoidalXmu uinf usup a b c d).cutSet α
      = Set.Icc (α * (b - a) + a) (d - α * (d - c)) := by
  refine ⟨by simp [trapezoidalXmu]; ring, by simp [trapezoidalXmu]; ring, ?_, ?_⟩
  · nlinarith [mul_nonneg h0 (sub_nonneg.mpr hab), mul_nonneg h0 (sub_nonneg.mpr hcd),
      mul_nonneg (sub_nonneg.mpr h1) (sub_nonneg.mpr hab),
      mul_nonneg (sub_nonneg.mpr h1) (sub_nonneg.mpr hcd)]
  · unfold Xmu.cutSet
    have e1 : (trapezoidalXmu uinf usup a b c d).lo α = α * (b - a) + a := by
      simp [trapezoidalXmu]; ring
    have e2 : (trapezoidalXmu uinf usup a b c d).hi α = d - α * (d - c) := by
      simp [trapezoidalXmu]; ring
    rw [e1, e2]

/-- Witness for C1 at universe `[0,10]`, points `1 ≤ 2 ≤ 3 ≤ 4`,
`alpha = 1/2`. -/
theorem trapezoidalXmu_alpha_cut_witness :
    (trapezoidalXmu 0 10 1 2 3 4).lo (1/2) = (1/2) * (2 - 1) + 1 ∧
    (trapezoidalXmu 0 10 1 2 3 4).hi (1/2) = 4 - (1/2) * (4 - 3) ∧
    (1/2 : ℚ) * (2 - 1) + 1 ≤ 4 - (1/2) * (4 - 3) ∧
    (trapezoidalXmu 0 10 1 2 3 4).cutSet (1/2)
      = Set.Icc ((1/2 : ℚ) * (2 - 1) + 1) (4 - (1/2) * (4 - 3)) :=
  trapezoidalXmu_alpha_cut 0 10 1 2 3 4 (1/2) (by norm_num) (by norm_num)
    (by norm_num) (by norm_num) (by norm_num)

/-- Claim C7: for every universe and control points `a ≤ b ≤ c`, the entity
built by `TriangularXmu(u, a, b, c)` has the same membership function and
the same X-mu function as the one built by `TrapezoidalXmu(u, a, b, b, c)`;
in particular the triangular X-mu function is
`[alpha*(b-a)+a, c - alpha*(c-b)]`. -/
theorem triangularXmu_eq_trapezoidalXmu (uinf usup a b c : ℚ)
    (hab : a ≤ b) (hbc : b ≤ c) :
    (∀ x, (triangularXmu uinf usup a b c).mu x
        = (trapezoidalXmu uinf usup a b b c).mu x) ∧
    (∀ α, (triangularXmu uinf usup a b c).lo α
          = (trapezoidalXmu uinf usup a b b c).lo α ∧
        (triangularXmu uinf usup a b c).hi α
          = (trapezoidalXmu uinf usup a b b c).hi α) ∧
    (∀ α, (triangularXmu uinf usup a b c).cutSet α
        = (trapezoidalXmu uinf usup a b b c).cutSet α) ∧
    (∀ α, (triangularXmu uinf usup a b c).lo α = α * (b - a) + a ∧
        (triangularXmu uinf usup a b c).hi α = c - α * (c - b)) := by
  refine ⟨fun x => rfl, fun α => ⟨rfl, rfl⟩, fun α => rfl, fun α => ⟨?_, ?_⟩⟩
  · simp only [triangularXmu]; ring
  · simp only [triangularXmu]; ring

/-- Witness for C7 at universe `[0,10]`, points `1 ≤ 2 ≤ 4`, evaluated at
`x = 3` and `alpha = 1/2`. -/
theorem triangularXmu_eq_trapezoidalXmu_witness :
    (triangularXmu 0 10 1 2 4).mu 3 = (trapezoidalXmu 0 10 1 2 2 4).mu 3 ∧
    (triangularXmu 0 10 1 2 4).lo (1/2) = (1/2) * (2 - 1) + 1 ∧
    (triangularXmu 0 10 1 2 4).hi (1/2) = 4 - (1/2) * (4 - 2) :=
  ⟨(triangularXmu_eq_trapezoidalXmu 0 10 1 2 4 (by norm_num) (by norm_num)).1 3,
    (triangularXmu_eq_trapezoidalXmu 0 10 1 2 4 (by norm_num) (by norm_num)).2.2.2 (1/2)⟩

/-- Claim C5: for each of the four shape generators with correctly ordered
control points and all `alpha1 < alpha2` in `[0,1]`, the alpha-cut at
`alpha2` is a subset of the alpha-cut at `alpha1`. -/
theorem alpha_cuts_nested (uinf usup ua ub da db ta tb tc td ra rb rc α1 α2 : ℚ)
    (hu : ua ≤ ub) (hd : da ≤ db)
    (ht1 : ta ≤ tb) (ht2 : tb ≤ tc) (ht3 : tc ≤ td)
    (hr1 : ra ≤ rb) (hr2 : rb ≤ rc)
    (h0 : 0 ≤ α1) (hlt : α1 < α2) (h1 : α2 ≤ 1) :
    (upwardGradientXmu uinf usup ua ub).cutSet α2
        ⊆ (upwardGradientXmu uinf usup ua ub).cutSet α1 ∧
    (downwardGradientXmu uinf usup da db).cutSet α2
        ⊆ (downwardGradientXmu uinf usup da db).cutSet α1 ∧
    (trapezoidalXmu uinf usup ta tb tc td).cutSet α2
        ⊆ (trapezoidalXmu uinf usup ta tb tc td).cutSet α1 ∧
    (triangularXmu uinf usup ra rb rc).cutSet α2
        ⊆ (triangularXmu uinf usup ra rb rc).cutSet α1 := by
  have hle : α1 ≤ α2 := le_of_lt hlt
  have hstep : ∀ p q : ℚ, p ≤ q → α1 * q - α1 * p + p ≤ α2 * q - α2 * p + p := by
    intro p q hpq
    nlinarith [mul_nonneg (sub_nonneg.mpr hle) (sub_nonneg.mpr hpq)]
  have hstep2 : ∀ p q : ℚ, p ≤ q → -α2 * q + α2 * p + q ≤ -α1 * q + α1 * p + q := by
    intro p q hpq
    nlinarith [mul_nonneg (sub_nonneg.mpr hle) (sub_nonneg.mpr hpq)]
  unfold Xmu.cutSet
  refine ⟨Set.Icc_subset_Icc ?_ ?_, Set.Icc_subset_Icc ?_ ?_,
    Set.Icc_subset_Icc ?_ ?_, Set.Icc_subset_Icc ?_ ?_⟩
  · exact hstep ua ub hu
  · exact le_refl _
  · exact le_refl _
  · exact hstep2 da db hd
  · exact hstep ta tb ht1
  · exact hstep2 tc td ht3
  · exact hstep ra rb hr1
  · exact hstep2 rb rc hr2

/-- Witness for C5: concrete shapes on universe `[0,10]`, `alpha1 = 1/4`,
`alpha2 = 3/4`. -/
theorem alpha_cuts_nested_witness :
    (upwardGradientXmu 0 10 1 2).cutSet (3/4)
      ⊆ (upwardGradientXmu 0 10 1 2).cutSet (1/4) :=
  (alpha_cuts_nested 0 10 1 2 1 2 1 2 3 4 1 2 3 (1/4) (3/4)
    (by norm_num) (by norm_num) (by norm_num) (by norm_num) (by norm_num)
    (by norm_num) (by norm_num) (by norm_num) (by norm_num) (by norm_num)).1

/-- Claim C10: for `UpwardGradientXmu` with `a = b` every operation is still
well defined: for every alpha the X-mu function is the constant interval
`[a, sup u]`, the division-by-zero linear branch of the generated membership
function is guarded by the unsatisfiable condition `a < x < b` and is never
taken, and the membership function evaluates to the step that is `0` below
`b` and `1` from `b` on. -/
theorem upwardGradientXmu_degenerate (uinf usup a b : ℚ) (hab : a = b) :
    (∀ α, (upwardGradientXmu uinf usup a b).lo α = a ∧
      (upwardGradientXmu uinf usup a b).hi α = usup ∧
      (upwardGradientXmu uinf usup a b).cutSet α = Set.Icc a usup) ∧
    (∀ x, ¬(a < x ∧ x < b)) ∧
    (∀ x, (upwardGradientXmu uinf usup a b).mu x = if b ≤ x then 1 else 0) := by
  subst hab
  have hguard : ∀ x : ℚ, ¬(a < x ∧ x < a) := by
    rintro x ⟨hx1, hx2⟩
    exact absurd (hx1.trans hx2) (lt_irrefl a)
  refine ⟨fun α => ⟨?_, rfl, ?_⟩, hguard, fun x => ?_⟩
  · simp only [upwardGradientXmu]; ring
  · unfold Xmu.cutSet
    have e : (upwardGradientXmu uinf usup a a).lo α = a := by
      simp only [upwardGradientXmu]; ring
    rw [e]
    rfl
  · simp only [upwardGradientXmu]
    rw [if_neg (hguard x)]

/-- Witness for C10 at `a = b = 3` on universe `[0,10]`, evaluated at
`alpha = 1/2` and `x = 5`. -/
theorem upwardGradientXmu_degenerate_witness :
    (upwardGradientXmu 0 10 3 3).lo (1/2) = 3 ∧
    (upwardGradientXmu 0 10 3 3).hi (1/2) = 10 ∧
    (upwardGradientXmu 0 10 3 3).cutSet (1/2) = Set.Icc 3 10 ∧
    ¬((3:ℚ) < 5 ∧ (5:ℚ) < 3) ∧
    (upwardGradientXmu 0 10 3 3).mu 5 = if (3:ℚ) ≤ 5 then 1 else 0 :=
  ⟨((upwardGradientXmu_degenerate 0 10 3 3 rfl).1 (1/2)).1,
    ((upwardGradientXmu_degenerate 0 10 3 3 rfl).1 (1/2)).2.1,
    ((upwardGradientXmu_degenerate 0 10 3 3 rfl).1 (1/2)).2.2,
    (upwardGradientXmu_degenerate 0 10 3 3 rfl).2.1 5,
    (upwardGradientXmu_degenerate 0 10 3 3 rfl).2.2 5⟩

/-- Helper: with both substituted alpha-cuts non-empty and the interval
operation returning normally, the engine returns a fresh entity over the
receiver's universe wrapping the produced interval. -/
theorem arithmeticalOperationX_ok (A B : Xmu) (α : ℚ)
    (op : CutVal → CutVal → MpiResult) (ra rb : CutVal) (l h : XQ)
    (hA : A.cutAt α = some ra) (hB : B.cutAt α = some rb)
    (hop : op ra rb = MpiResult.ok l h) :
    A.arithmeticalOperationX B α op = OpResult.entity A.uinf A.usup l h := by
  simp [Xmu.arithmeticalOperationX, hA, hB, hop]

/-- Helper: a non-empty symbolic interval substitutes to its endpoint pair. -/
theorem cutAt_of_le (A : Xmu) (α : ℚ) (h : A.lo α ≤ A.hi α) :
    A.cutAt α = some ⟨A.lo α, A.hi α⟩ := by
  unfold Xmu.cutAt
  rw [if_neg (not_lt.mpr h)]

/-- Claim C3 (code bug): dividing the entity with alpha-cut `[5/4, 7/4]` by
the entity whose alpha-cut at `alpha = 1/2` is `[-1, 1]` (which contains 0)
does not return `None`: the engine returns an entity wrapping
`Interval(-inf, +inf)`. -/
theorem divX_full_line_on_zero_straddling_divisor :
    (triangularXmu 0 10 1 (3/2) 2).divX (triangularXmu 0 10 (-2) 0 2) (1/2)
      = OpResult.entity 0 10 XQ.ninf XQ.pinf ∧
    (triangularXmu 0 10 (-2) 0 2).lo (1/2) = -1 ∧
    (triangularXmu 0 10 (-2) 0 2).hi (1/2) = 1 ∧
    (triangularXmu 0 10 (-2) 0 2).lo (1/2) < 0 ∧
    0 < (triangularXmu 0 10 (-2) 0 2).hi (1/2) := by
  refine ⟨?_, by norm_num [triangularXmu], by norm_num [triangularXmu],
    by norm_num [triangularXmu], by norm_num [triangularXmu]⟩
  have hA : (triangularXmu 0 10 1 (3/2) 2).cutAt (1/2) = some ⟨5/4, 7/4⟩ := by
    norm_num [Xmu.cutAt, triangularXmu]
  have hB : (triangularXmu 0 10 (-2) 0 2).cutAt (1/2) = some ⟨-1, 1⟩ := by
    norm_num [Xmu.cutAt, triangularXmu]
  have hop : mpiDiv ⟨5/4, 7/4⟩ ⟨-1, 1⟩ = MpiResult.ok XQ.ninf XQ.pinf := by
    norm_num [mpiDiv]
  exact arithmeticalOperationX_ok _ _ _ mpiDiv _ _ _ _ hA hB hop

/-- Claim C4 counterexample: with `A = B = TriangularXmu(u, 0, 1, 2)` and
`alpha = 0` both cuts are `[0, 2]`; `addX` gives `[0, 4]` and subtracting B
again gives `[-2, 4]`, which is not A's cut `[0, 2]` (and the difference is
2, far beyond floating tolerance). -/
theorem addX_subX_roundtrip_cex :
    Option.map (fun C => C.subX (triangularXmu 0 10 0 1 2) 0)
        ((triangularXmu 0 10 0 1 2).addX (triangularXmu 0 10 0 1 2) 0).toXmu
      = some (OpResult.entity 0 10 (XQ.fin (-2)) (XQ.fin 4)) ∧
    (triangularXmu 0 10 0 1 2).lo 0 = 0 ∧
    (triangularXmu 0 10 0 1 2).hi 0 = 2 ∧
    ((-2 : ℚ) ≠ 0 ∨ (4 : ℚ) ≠ 2) := by
  refine ⟨?_, by norm_num [triangularXmu], by norm_num [triangularXmu], by norm_num⟩
  have hA : (triangularXmu 0 10 0 1 2).cutAt 0 = some ⟨0, 2⟩ := by
    norm_num [Xmu.cutAt, triangularXmu]
  have h1 : (triangularXmu 0 10 0 1 2).addX (triangularXmu 0 10 0 1 2) 0
      = OpResult.entity 0 10 (XQ.fin 0) (XQ.fin 4) :=
    arithmeticalOperationX_ok _ _ _ mpiAdd _ _ _ _ hA hA (by norm_num [mpiAdd])
  rw [h1]
  have h2 : (OpResult.entity (0:ℚ) 10 (XQ.fin 0) (XQ.fin 4)).toXmu
      = some { uinf := (0:ℚ), usup := 10, lo := fun _ => 0, hi := fun _ => 4,
               mu := fun _ => 0 } := rfl
  rw [h2]
  simp only [Option.map_some', Option.some.injEq]
  have hC : ({ uinf := (0:ℚ), usup := 10, lo := fun _ => 0, hi := fun _ => 4,
               mu := fun _ => 0 } : Xmu).cutAt 0 = some ⟨0, 4⟩ := by
    norm_num [Xmu.cutAt]
  exact arithmeticalOperationX_ok _ _ _ mpiSub _ _ _ _ hC hA (by norm_num [mpiSub])

/-- Claim C4 (amended): when both cuts at alpha are non-empty, adding B and
then subtracting B yields an entity whose alpha-cut interval
`[lo_a + lo_b - hi_b, hi_a + hi_b - lo_b]` contains A's interval, with
equality exactly when B's cut at that alpha is a single point. -/
theorem addX_subX_roundtrip (A B : Xmu) (α : ℚ) (h0 : 0 ≤ α) (h1 : α ≤ 1)
    (hA : A.lo α ≤ A.hi α) (hB : B.lo α ≤ B.hi α) :
    ∃ C, (A.addX B α).toXmu = some C ∧
      C.subX B α = OpResult.entity A.uinf A.usup
        (XQ.fin (A.lo α + B.lo α - B.hi α)) (XQ.fin (A.hi α + B.hi α - B.lo α)) ∧
      Set.Icc (A.lo α) (A.hi α)
        ⊆ Set.Icc (A.lo α + B.lo α - B.hi α) (A.hi α + B.hi α - B.lo α) ∧
      ((A.lo α + B.lo α - B.hi α = A.lo α ∧ A.hi α + B.hi α - B.lo α = A.hi α)
        ↔ B.lo α = B.hi α) := by
  have hadd : A.addX B α = OpResult.entity A.uinf A.usup
      (XQ.fin (A.lo α + B.lo α)) (XQ.fin (A.hi α + B.hi α)) :=
    arithmeticalOperationX_ok A B α mpiAdd _ _ _ _
      (cutAt_of_le A α hA) (cutAt_of_le B α hB) rfl
  refine ⟨{ uinf := A.uinf, usup := A.usup, lo := fun _ => A.lo α + B.lo α,
            hi := fun _ => A.hi α + B.hi α, mu := fun _ => 0 }, ?_, ?_, ?_, ?_⟩
  · rw [hadd]; rfl
  · have hC : ({ uinf := A.uinf, usup := A.usup, lo := fun _ => A.lo α + B.lo α,
                 hi := fun _ => A.hi α + B.hi α, mu := fun _ => 0 } : Xmu).cutAt α
        = some ⟨A.lo α + B.lo α, A.hi α + B.hi α⟩ := by
      unfold Xmu.cutAt
      rw [if_neg (not_lt.mpr (by dsimp; linarith))]
    exact arithmeticalOperationX_ok _ B α mpiSub _ _ _ _ hC (cutAt_of_le B α hB) rfl
  · exact Set.Icc_subset_Icc (by linarith) (by linarith)
  · constructor
    · rintro ⟨he, _⟩
      linarith
    · intro he
      constructor <;> (rw [he]; ring)

/-- Witness for C4 (amended) with `A = TriangularXmu(u, 0, 1, 2)`,
`B = TriangularXmu(u, 1, 3/2, 2)` at `alpha = 1/2`. -/
theorem addX_subX_roundtrip_witness :
    ∃ C, ((triangularXmu 0 10 0 1 2).addX (triangularXmu 0 10 1 (3/2) 2) (1/2)).toXmu
        = some C ∧
      C.subX (triangularXmu 0 10 1 (3/2) 2) (1/2)
        = OpResult.entity 0 10
          (XQ.fin ((triangularXmu 0 10 0 1 2).lo (1/2)
            + (triangularXmu 0 10 1 (3/2) 2).lo (1/2)
            - (triangularXmu 0 10 1 (3/2) 2).hi (1/2)))
          (XQ.fin ((triangularXmu 0 10 0 1 2).hi (1/2)
            + (triangularXmu 0 10 1 (3/2) 2).hi (1/2)
            - (triangularXmu 0 10 1 (3/2) 2).lo (1/2))) ∧
      Set.Icc ((triangularXmu 0 10 0 1 2).lo (1/2)) ((triangularXmu 0 10 0 1 2).hi (1/2))
        ⊆ Set.Icc ((triangularXmu 0 10 0 1 2).lo (1/2)
            + (triangularXmu 0 10 1 (3/2) 2).lo (1/2)
            - (triangularXmu 0 10 1 (3/2) 2).hi (1/2))
          ((triangularXmu 0 10 0 1 2).hi (1/2)
            + (triangularXmu 0 10 1 (3/2) 2).hi (1/2)
            - (triangularXmu 0 10 1 (3/2) 2).lo (1/2)) ∧
      (((triangularXmu 0 10 0 1 2).lo (1/2)
            + (triangularXmu 0 10 1 (3/2) 2).lo (1/2)
            - (triangularXmu 0 10 1 (3/2) 2).hi (1/2)
          = (triangularXmu 0 10 0 1 2).lo (1/2) ∧
        (triangularXmu 0 10 0 1 2).hi (1/2)
            + (triangularXmu 0 10 1 (3/2) 2).hi (1/2)
            - (triangularXmu 0 10 1 (3/2) 2).lo (1/2)
          = (triangularXmu 0 10 0 1 2).hi (1/2))
        ↔ (triangularXmu 0 10 1 (3/2) 2).lo (1/2)
          = (triangularXmu 0 10 1 (3/2) 2).hi (1/2)) :=
  addX_subX_roundtrip (triangularXmu 0 10 0 1 2) (triangularXmu 0 10 1 (3/2) 2) (1/2)
    (by norm_num) (by norm_num) (by norm_num [triangularXmu]) (by norm_num [triangularXmu])

/-- Claim C8 counterexample: calling `addX` with the out-of-range
`alpha = 2` is not rejected: the engine substitutes 2 directly (the cut of
`UpwardGradientXmu([0,10], 1, 2)` at alpha 2 is `[3, 10]`) and returns the
entity `[6, 20]`, which moreover differs from the results at the clamped
values `alpha = 1` and `alpha = 0`. -/
theorem alpha_out_of_range_not_rejected :
    (upwardGradientXmu 0 10 1 2).addX (upwardGradientXmu 0 10 1 2) 2
      = OpResult.entity 0 10 (XQ.fin 6) (XQ.fin 20) ∧
    (upwardGradientXmu 0 10 1 2).addX (upwardGradientXmu 0 10 1 2) 1
      = OpResult.entity 0 10 (XQ.fin 4) (XQ.fin 20) ∧
    (upwardGradientXmu 0 10 1 2).addX (upwardGradientXmu 0 10 1 2) 0
      = OpResult.entity 0 10 (XQ.fin 2) (XQ.fin 20) ∧
    ((6:ℚ) ≠ 4 ∧ (6:ℚ) ≠ 2) := by
  have hc2 : (upwardGradientXmu 0 10 1 2).cutAt 2 = some ⟨3, 10⟩ := by
    norm_num [Xmu.cutAt, upwardGradientXmu]
  have hc1 : (upwardGradientXmu 0 10 1 2).cutAt 1 = some ⟨2, 10⟩ := by
    norm_num [Xmu.cutAt, upwardGradientXmu]
  have hc0 : (upwardGradientXmu 0 10 1 2).cutAt 0 = some ⟨1, 10⟩ := by
    norm_num [Xmu.cutAt, upwardGradientXmu]
  refine ⟨?_, ?_, ?_, by norm_num⟩
  · exact arithmeticalOperationX_ok _ _ _ mpiAdd _ _ _ _ hc2 hc2 (by norm_num [mpiAdd])
  · exact arithmeticalOperationX_ok _ _ _ mpiAdd _ _ _ _ hc1 hc1 (by norm_num [mpiAdd])
  · exact arithmeticalOperationX_ok _ _ _ mpiAdd _ _ _ _ hc0 hc0 (by norm_num [mpiAdd])

/-- Claim C8 (amended): a concrete alpha outside `[0,1]` is neither rejected
nor clamped: for every rational alpha whatsoever the engine substitutes it
directly into both X-mu functions and proceeds normally (here for `addX` on
an upward gradient whose substituted cut is non-empty). -/
theorem alpha_substituted_unclamped (uinf usup a b α : ℚ)
    (h : α * b - α * a + a ≤ usup) :
    (upwardGradientXmu uinf usup a b).addX (upwardGradientXmu uinf usup a b) α
      = OpResult.entity uinf usup
          (XQ.fin ((α * b - α * a + a) + (α * b - α * a + a)))
          (XQ.fin (usup + usup)) := by
  have hc : (upwardGradientXmu uinf usup a b).cutAt α
      = some ⟨α * b - α * a + a, usup⟩ :=
    cutAt_of_le _ α h
  exact arithmeticalOperationX_ok _ _ _ mpiAdd _ _ _ _ hc hc rfl

/-- Witness for C8 (amended) at the out-of-range `alpha = 2`. -/
theorem alpha_substituted_unclamped_witness :
    (upwardGradientXmu 0 10 1 2).addX (upwardGradientXmu 0 10 1 2) 2
      = OpResult.entity 0 10
          (XQ.fin ((2 * 2 - 2 * 1 + 1) + (2 * 2 - 2 * 1 + 1)))
          (XQ.fin (10 + 10)) :=
  alpha_substituted_unclamped 0 10 1 2 2 (by norm_num)

/-- Claim C9 counterexample: constructing `TrapezoidalXmu` (on the
well-formed universe `[0, 10]`) with the out-of-order control points
`4, 3, 2, 1` raises no error and produces an entity; the violated ordering
surfaces only later, as the inverted endpoint pair `(3, 2)` at alpha 1,
i.e. an `EmptySet` alpha-cut — not as a construction-time error. -/
theorem malformed_construction_produces_entity :
    (trapezoidalXmu 0 10 4 3 2 1).lo 1 = 3 ∧
    (trapezoidalXmu 0 10 4 3 2 1).hi 1 = 2 ∧
    (trapezoidalXmu 0 10 4 3 2 1).cutAt 1 = none ∧
    (trapezoidalXmu 0 10 4 3 2 1).uinf = 0 ∧
    (trapezoidalXmu 0 10 4 3 2 1).usup = 10 := by
  norm_num [trapezoidalXmu, Xmu.cutAt]

/-- Claim C9 (amended): on a well-formed universe, construction performs no
validation of the control points: every tuple, including out-of-order ones,
is accepted silently and yields an entity whose X-mu endpoint formulas are
applied verbatim, so invalid orderings surface only later as empty or
inverted alpha-cuts, never as construction-time errors.  (A universe with
`inf > sup` never reaches the constructor as an interval: sympy normalises
it to `EmptySet` and `Xmu.__init__` then fails on `u.start` with an
`AttributeError` — an accidental failure, not a descriptive validation
error; that path is outside this interval-universe model.) -/
theorem construction_unvalidated (uinf usup a b c d α : ℚ)
    (huniv : uinf ≤ usup) :
    (trapezoidalXmu uinf usup a b c d).uinf = uinf ∧
    (trapezoidalXmu uinf usup a b c d).usup = usup ∧
    (trapezoidalXmu uinf usup a b c d).lo α = α * b - α * a + a ∧
    (trapezoidalXmu uinf usup a b c d).hi α = -α * d + α * c + d :=
  ⟨rfl, rfl, rfl, rfl⟩

/-- Witness for C9 (amended) at universe `[0, 10]` with the out-of-order
control points `4, 3, 2, 1` and `alpha = 1`. -/
theorem construction_unvalidated_witness :
    (trapezoidalXmu 0 10 4 3 2 1).uinf = 0 ∧
    (trapezoidalXmu 0 10 4 3 2 1).usup = 10 ∧
    (trapezoidalXmu 0 10 4 3 2 1).lo 1 = 1 * 3 - 1 * 4 + 4 ∧
    (trapezoidalXmu 0 10 4 3 2 1).hi 1 = -1 * 1 + 1 * 2 + 1 :=
  construction_unvalidated 0 10 4 3 2 1 1 (by norm_num)

/-- Claim C6: `differenceX` subtracts the target's X-mu set from the
receiver's (order: this minus target) at every alpha, and the result keeps
the receiver's universe. -/
theorem differenceX_is_self_minus_target (A B : SetXmu) (α : ℚ) :
    (∀ x, x ∈ (A.differenceX B).xequals α ↔ (x ∈ A.xequals α ∧ x ∉ B.xequals α)) ∧
    (A.differenceX B).xequals α = A.xequals α \ B.xequals α ∧
    (A.differenceX B).uinf = A.uinf ∧ (A.differenceX B).usup = A.usup := by
  refine ⟨fun x => ?_, rfl, rfl, rfl⟩
  simp [SetXmu.differenceX, Set.mem_diff]
